import Mathlib

/-!
A shallow embedding, in Lean 4, of the core logic of the `complexity_analyzer`
Python package: the data model (`models.py`), the GitHub listing/filtering
logic (`github_client.py`), the token budgeter (`token_manager.py`) and the
orchestrating analyzer (`analyzer.py`).  Python `float` scores are modelled as
exact rationals, Python `int` as `Int`/`Nat`, raised exceptions as
`Except`/`Option` results.  The `tiktoken` encoding used by
`token_manager.py` is an external opaque dependency; it is modelled as an
abstract pair of `encode`/`decode` functions, with a concrete character-level
instance used for witnesses and counterexamples.
-/

namespace ComplexityAnalyzer

/-! ## Definitions: shallow embedding of the source -/

/-! ## token_manager.py -/

/-- Abstract model of a `tiktoken` encoding (`self.encoding` in
`TokenManager`): `encode` maps text to a token sequence, `decode` maps a
token sequence back to text.  `tiktoken` is an external dependency, treated
as opaque by the source. -/
structure Encoding where
  encode : String → List Nat
  decode : List Nat → String

/-- `TokenManager.MODEL_LIMITS` from `token_manager.py`. -/
def MODEL_LIMITS : List (String × Int) :=
  [("gpt-4-turbo-preview", 128000), ("gpt-4", 8192), ("gpt-3.5-turbo", 16385),
   ("claude-3-opus-20240229", 200000), ("claude-3-sonnet-20240229", 200000)]

/-- Python `dict.get(key, default)` on an association list. -/
def dictGetD (m : List (String × Int)) (k : String) (d : Int) : Int :=
  match m.find? (fun kv => kv.1 == k) with
  | some kv => kv.2
  | none => d

/-- The resolution `max_tokens = max_tokens or self.MODEL_LIMITS.get(self.model, 8000)`
in `TokenManager.truncate_to_limit`.  Python `or` yields the right operand
when the left is falsy, i.e. when `max_tokens` is `None` or `0`. -/
def resolveMaxTokens (model : String) (maxTokens : Option Int) : Int :=
  match maxTokens with
  | some v => if v ≠ 0 then v else dictGetD MODEL_LIMITS model 8000
  | none => dictGetD MODEL_LIMITS model 8000

/-- Python slicing `l[:n]` for an `Int` bound `n`: a negative `n` counts from
the end, keeping `max 0 (len + n)` elements. -/
def pySliceTo (l : List α) (n : Int) : List α :=
  l.take (Int.toNat (if n < 0 then (l.length : Int) + n else n))

/-- `TokenManager.truncate_to_limit` from `token_manager.py`, parametrised by
the instance's encoding and model name (instance attributes in the source):
resolve `max_tokens`, subtract `buffer`, return the text unchanged if its
token count already fits, otherwise decode the sliced token list. -/
def truncate_to_limit (E : Encoding) (model : String) (text : String)
    (maxTokens : Option Int) (buffer : Int) : String :=
  let m := resolveMaxTokens model maxTokens - buffer
  let tokens := E.encode text
  if (tokens.length : Int) ≤ m then text
  else E.decode (pySliceTo tokens m)

/-- A concrete lawful instance of `Encoding` (one token per character),
used to instantiate the abstract encoding in witnesses and counterexamples. -/
def charEncoding : Encoding where
  encode s := s.data.map Char.toNat
  decode l := String.mk (l.map Char.ofNat)

/-! ## models.py -/

/-- The raw field values handed to the `FileComplexity` pydantic model
before validation (`models.py`). -/
structure FileComplexityInput where
  file_path : String
  total_score : Rat
  cyclomatic_score : Rat
  architectural_score : Rat
  algorithmic_score : Rat
  line_count : Int
  function_count : Int
  class_count : Int
  patterns_detected : List String
  reasoning : String

/-- A validated `FileComplexity` value (`models.py`). -/
structure FileComplexity where
  file_path : String
  total_score : Rat
  cyclomatic_score : Rat
  architectural_score : Rat
  algorithmic_score : Rat
  line_count : Int
  function_count : Int
  class_count : Int
  patterns_detected : List String
  reasoning : String
deriving DecidableEq

/-- `FileComplexity.validate_total_score` from `models.py`.  Under pydantic
v1 semantics a `@validator` receives in `values` only the fields declared
(and already validated) before the validated field, so the two component
scores are looked up as possibly absent values. -/
def validate_total_score (v : Rat) (cyc arch : Option Rat) : Except String Rat :=
  if cyc.isSome ∧ arch.isSome then
    let min_score := min (cyc.getD 0) (arch.getD 0)
    if v < min_score - 20 then
      .error "Total score significantly below component scores"
    else .ok v
  else .ok v

/-- Construction of a `FileComplexity` through pydantic validation: the
declared field constraints (`ge`/`le`/`gt`/`min_length`) plus the custom
`total_score` validator, with fields processed in declaration order.
`total_score` is declared before `cyclomatic_score` and
`architectural_score` in `models.py`, so when its validator runs the
`values` dict holds only `file_path` and both component lookups are
`none`. -/
def mkFileComplexity (i : FileComplexityInput) : Except String FileComplexity :=
  if ¬ (0 ≤ i.total_score ∧ i.total_score ≤ 100) then .error "total_score out of range"
  else
    match validate_total_score i.total_score none none with
    | .error e => .error e
    | .ok ts =>
      if ¬ (0 ≤ i.cyclomatic_score ∧ i.cyclomatic_score ≤ 100) then
        .error "cyclomatic_score out of range"
      else if ¬ (0 ≤ i.architectural_score ∧ i.architectural_score ≤ 100) then
        .error "architectural_score out of range"
      else if ¬ (0 ≤ i.algorithmic_score ∧ i.algorithmic_score ≤ 100) then
        .error "algorithmic_score out of range"
      else if ¬ (0 < i.line_count) then .error "line_count must be positive"
      else if ¬ (0 ≤ i.function_count) then .error "function_count must be nonnegative"
      else if ¬ (0 ≤ i.class_count) then .error "class_count must be nonnegative"
      else if ¬ (10 ≤ i.reasoning.length) then .error "reasoning shorter than min_length"
      else .ok ⟨i.file_path, ts, i.cyclomatic_score, i.architectural_score,
        i.algorithmic_score, i.line_count, i.function_count, i.class_count,
        i.patterns_detected, i.reasoning⟩

/-! ## github_client.py: parse_repo_url -/

/-- Python `str.rstrip(chars)`: remove every trailing character that occurs
in `chars` (a character set, not a suffix). -/
def pyRstrip (s : String) (chars : List Char) : String :=
  String.mk ((s.data.reverse.dropWhile (fun c => chars.contains c)).reverse)

/-- Matching the tail after an occurrence of `github.com/` against
`([^/]+)/([^/]+?)(?:\.git)?$` (first pattern of `parse_repo_url`): group 1
is the maximal nonempty run of non-slash characters before a `/`; the
remainder must be nonempty, contain no further `/`, and the non-greedy
group 2 omits a final literal `.git` exactly when one is present and
group 2 stays nonempty. -/
def matchTail1 (t : List Char) : Option (List Char × List Char) :=
  let owner := t.takeWhile (fun c => c ≠ '/')
  match t.drop owner.length with
  | '/' :: r2 =>
    if owner ≠ [] ∧ r2 ≠ [] ∧ ¬ r2.contains '/' then
      if 4 < r2.length ∧ (['.', 'g', 'i', 't']).isSuffixOf r2 then
        some (owner, r2.take (r2.length - 4))
      else some (owner, r2)
    else none
  | _ => none

/-- Matching the tail after an occurrence of `github.com/` against
`([^/]+)/([^/]+)` (second pattern of `parse_repo_url`): two nonempty runs
of non-slash characters separated by `/`; the rest of the string after
group 2 is left unconsumed. -/
def matchTail2 (t : List Char) : Option (List Char × List Char) :=
  let owner := t.takeWhile (fun c => c ≠ '/')
  match t.drop owner.length with
  | '/' :: r2 =>
    let g2 := r2.takeWhile (fun c => c ≠ '/')
    if owner ≠ [] ∧ g2 ≠ [] then some (owner, g2) else none
  | _ => none

/-- The literal prefix `github.com/` that both regexes of `parse_repo_url`
must match at the start of a match position. -/
def ghMarker : List Char := ['g', 'i', 't', 'h', 'u', 'b', '.', 'c', 'o', 'm', '/']

/-- `re.search` for a pattern of the form `github\.com/<tail>`: try every
start position left to right; at each occurrence of the marker attempt the
tail match, returning the leftmost success. -/
def scanGH (tail : List Char → Option (List Char × List Char)) :
    List Char → Option (List Char × List Char)
  | [] => none
  | c :: cs =>
    if ghMarker.isPrefixOf (c :: cs) then
      match tail ((c :: cs).drop ghMarker.length) with
      | some r => some r
      | none => scanGH tail cs
    else scanGH tail cs

/-- `GitHubAPIClient.parse_repo_url` from `github_client.py`: try the two
regex patterns in order with `re.search`; on a match return
`(group(1), group(2).rstrip(".git"))`; otherwise raise `ValueError` with
the message `Invalid GitHub URL: <url>`. -/
def parse_repo_url (url : String) : Except String (String × String) :=
  match scanGH matchTail1 url.data with
  | some (o, r) => .ok (String.mk o, pyRstrip (String.mk r) ['.', 'g', 'i', 't'])
  | none =>
    match scanGH matchTail2 url.data with
    | some (o, r) => .ok (String.mk o, pyRstrip (String.mk r) ['.', 'g', 'i', 't'])
    | none => .error ("Invalid GitHub URL: " ++ url)

/-! ## github_client.py: fnmatch-based exclusion -/

/-- Split a character list at the first `]`, returning the parts before
and after it; `none` when no `]` occurs. -/
def splitAtRB : List Char → Option (List Char × List Char)
  | [] => none
  | c :: rest =>
    if c = ']' then some ([], rest)
    else (splitAtRB rest).map (fun pr => (c :: pr.1, pr.2))

/-- The body of a bracket expression after the optional `!` has been
consumed, following `fnmatch.translate`: a `]` placed first belongs to the
body; an unterminated bracket yields `none` (the `[` then stays a
literal). -/
def bracketBody (negated : Bool) (l : List Char) :
    Option (Bool × List Char × List Char) :=
  match l with
  | ']' :: rest => (splitAtRB rest).map (fun pr => (negated, ']' :: pr.1, pr.2))
  | _ => (splitAtRB l).map (fun pr => (negated, pr.1, pr.2))

/-- Parse a bracket expression starting after `[`, following
`fnmatch.translate`: an optional leading `!` negates the set.  Returns
`(negated, body, rest-of-pattern)`. -/
def parseBracket (l : List Char) : Option (Bool × List Char × List Char) :=
  match l with
  | '!' :: rest => bracketBody true rest
  | _ => bracketBody false l

/-- Membership of a character in a bracket-expression body with `x-y`
ranges (the set syntax `fnmatch.translate` passes through to `re`). -/
def memberSet : Char → List Char → Bool
  | _, [] => false
  | c, x :: '-' :: y :: rest =>
    (decide (x ≤ c) && decide (c ≤ y)) || memberSet c rest
  | c, x :: rest => (c = x) || memberSet c rest

/-- One compiled token of an `fnmatch` pattern. -/
inductive GlobTok where
  | star : GlobTok
  | qmark : GlobTok
  | lit : Char → GlobTok
  | set : Bool → List Char → GlobTok
deriving DecidableEq

/-- Compile an `fnmatch` pattern into tokens, following
`fnmatch.translate`: `*` and `?` are wildcards, a well-formed bracket
expression is a character set, every other character (including an
unterminated `[`) is a literal.  On POSIX `os.path.normcase` is the
identity, so no case folding happens.  The `Nat` argument is only a
structural-recursion bound: each step consumes at least one character, so
any bound of at least `l.length` yields the same result
(`parseGlobAux_fuel`). -/
def parseGlobAux : Nat → List Char → List GlobTok
  | 0, _ => []
  | _ + 1, [] => []
  | n + 1, c :: ps =>
    if c = '*' then .star :: parseGlobAux n ps
    else if c = '?' then .qmark :: parseGlobAux n ps
    else if c = '[' then
      match parseBracket ps with
      | some (neg, body, rest) => .set neg body :: parseGlobAux n rest
      | none => .lit '[' :: parseGlobAux n ps
    else .lit c :: parseGlobAux n ps

/-- The compiled form of an `fnmatch` pattern. -/
def parseGlob (l : List Char) : List GlobTok := parseGlobAux l.length l

/-- Match a compiled pattern against a character list with the anchored
semantics `fnmatch` uses (its translated regex ends in `\Z`): `star`
(regex `.*`) may consume any run of characters, including `/`, so the rest
of the pattern must match some suffix of the text. -/
def tokMatch : List GlobTok → List Char → Bool
  | [], s => s.isEmpty
  | .star :: ts, s => s.tails.any (fun s2 => tokMatch ts s2)
  | .qmark :: ts, s =>
    match s with
    | [] => false
    | _ :: cs => tokMatch ts cs
  | .lit p :: ts, s =>
    match s with
    | [] => false
    | c :: cs => (p = c) && tokMatch ts cs
  | .set neg body :: ts, s =>
    match s with
    | [] => false
    | c :: cs => (neg != memberSet c body) && tokMatch ts cs

/-- Python `fnmatch.fnmatch(name, pattern)` as used by
`GitHubAPIClient._should_exclude`. -/
def fnmatch (name pattern : String) : Bool :=
  tokMatch (parseGlob pattern.data) name.data

/-- `GitHubAPIClient._should_exclude` from `github_client.py`: true when
the path matches any of the exclude patterns. -/
def should_exclude (path : String) (patterns : List String) : Bool :=
  patterns.any (fun pattern => fnmatch path pattern)

/-! ## github_client.py: listing, filtering, fetching -/

/-- One entry of the GitHub tree listing: the `type` and `path` keys that
`_filter_code_files` reads. -/
structure TreeItem where
  type : String
  path : String

/-- The `code_extensions` allow-list of `_filter_code_files`. -/
def code_extensions : List String :=
  [".py", ".js", ".ts", ".java", ".cpp", ".c", ".h", ".hpp",
   ".go", ".rs", ".rb", ".php", ".cs", ".swift", ".kt", ".scala"]

/-- Python `str.endswith(suffix)` on the underlying character lists. -/
def strEndsWith (s suffix : String) : Bool :=
  suffix.data.isSuffixOf s.data

/-- `GitHubAPIClient._filter_code_files` from `github_client.py`: keep the
paths of blobs whose path ends with an allow-listed extension and matches
no exclude pattern, in listing order. -/
def filter_code_files (tree : List TreeItem) (exclude_patterns : List String) :
    List String :=
  match tree with
  | [] => []
  | item :: rest =>
    if item.type != "blob" then filter_code_files rest exclude_patterns
    else if !(code_extensions.any (fun ext => strEndsWith item.path ext)) then
      filter_code_files rest exclude_patterns
    else if should_exclude item.path exclude_patterns then
      filter_code_files rest exclude_patterns
    else item.path :: filter_code_files rest exclude_patterns

/-- The paths whose contents `fetch_repository_files` attempts to fetch:
the filtered listing truncated to `max_files` (`code_files[:max_files]`). -/
def fetchAttemptPaths (tree : List TreeItem) (exclude_patterns : List String)
    (max_files : Nat) : List String :=
  (filter_code_files tree exclude_patterns).take max_files

/-- `GitHubAPIClient.fetch_repository_files` after the tree listing,
parametrised by a content oracle (`_get_file_content`; `none` models a
raised per-file exception, which the fetch loop catches and skips).  The
line `exclude_patterns = exclude_patterns or []` resolves `None` to the
empty pattern list.  Returns the fetched `(path, content)` pairs in fetch
order (Python dicts preserve insertion order). -/
def fetch_repository_files (getContent : String → Option String)
    (tree : List TreeItem) (max_files : Nat)
    (exclude_patterns : Option (List String)) : List (String × String) :=
  let pats := exclude_patterns.getD []
  (fetchAttemptPaths tree pats max_files).filterMap
    (fun p => (getContent p).map (fun c => (p, c)))

/-! ## analyzer.py -/

/-- The default exclude patterns of `RepositoryAnalyzer.__init__`. -/
def default_exclude_patterns : List String := ["tests/*", "*.md", "*.txt"]

/-- The resolution `self.exclude_patterns = exclude_patterns or ["tests/*",
"*.md", "*.txt"]` in `RepositoryAnalyzer.__init__`: Python `or` replaces a
falsy left operand (`None` or the empty list) by the defaults. -/
def resolve_exclude_patterns (exclude_patterns : Option (List String)) :
    List String :=
  match exclude_patterns with
  | none => default_exclude_patterns
  | some l => if l = [] then default_exclude_patterns else l

/-- The exceptions `RepositoryAnalyzer.analyze` can raise past its per-file
guard.  `valueError` models Python's built-in `ValueError`;
`noAnalyzableFiles` models the typed `NoAnalyzableFilesError` named by the
spec, which occurs nowhere in the source. -/
inductive PyError where
  | valueError : String → PyError
  | noAnalyzableFiles : PyError
deriving DecidableEq

/-- Python `max(x :: xs, key=f)`: a strictly greater key replaces the
current best, so the first element attaining the maximal key wins ties. -/
def pyMax1 (f : α → Rat) (x : α) (xs : List α) : α :=
  xs.foldl (fun acc y => if f acc < f y then y else acc) x

/-- Round half to even, Python's rounding mode (its floats are modelled
here as exact rationals). -/
def roundHalfEven (q : Rat) : Int :=
  let f := ⌊q⌋
  let r := q - f
  if r < 1 / 2 then f
  else if 1 / 2 < r then f + 1
  else if f % 2 = 0 then f else f + 1

/-- Python `round(q, 2)` of `analyzer.py`, at two decimal digits. -/
def pyRound2 (q : Rat) : Rat := (roundHalfEven (q * 100) : Rat) / 100

/-- `ComplexityReport` as assembled by `RepositoryAnalyzer.analyze`.  Its
pydantic validators (score in range, `top_file` among the analyzed paths)
are satisfied by construction there; `metadata` is flattened into the
three keys `analyze` stores. -/
structure ComplexityReport where
  repository_url : String
  analyzed_files : List FileComplexity
  top_file : String
  score : Rat
  total_files : Nat
  analyzed_count : Nat
  excluded_patterns : List String
  timestamp : String

/-- The per-file loop of `RepositoryAnalyzer.analyze`: each fetched file is
passed to `provider.analyze_file(file_content, file_path)`; a raised
exception (`none`) is caught, logged and skipped, and the remaining files
are still processed. -/
def analyzeLoop (provider : String → String → Option FileComplexity)
    (files : List (String × String)) : List FileComplexity :=
  files.filterMap (fun pc => provider pc.2 pc.1)

/-- The aggregation tail of `RepositoryAnalyzer.analyze`: `max` over the
analyzed files — Python's `max` raises `ValueError("max() arg is an empty
sequence")` when every file failed — then the mean total score rounded to
two decimals, and report assembly. -/
def aggregateReport (repository_url timestamp : String) (total_files : Nat)
    (excluded_patterns : List String) (analyzed : List FileComplexity) :
    Except PyError ComplexityReport :=
  match analyzed with
  | [] => .error (.valueError "max() arg is an empty sequence")
  | a :: rest =>
    let top := pyMax1 (fun fc => fc.total_score) a rest
    let avg := ((a :: rest).map (fun fc => fc.total_score)).sum / ((a :: rest).length : Rat)
    .ok ⟨repository_url, a :: rest, top.file_path, pyRound2 avg,
      total_files, (a :: rest).length, excluded_patterns, timestamp⟩

/-- `RepositoryAnalyzer.analyze` from the per-file loop onwards (the files
have been fetched). -/
def analyze (provider : String → String → Option FileComplexity)
    (repository_url timestamp : String) (excluded_patterns : List String)
    (files : List (String × String)) : Except PyError ComplexityReport :=
  aggregateReport repository_url timestamp files.length excluded_patterns
    (analyzeLoop provider files)

/-- `r` is the first element of `L` attaining the maximal value of `f`:
`L` splits as `P ++ r :: S` with every value in `L` at most `f r` and
every value strictly before `r` strictly below `f r`. -/
def IsFirstMax (f : α → Rat) (L : List α) (r : α) : Prop :=
  ∃ P S, L = P ++ r :: S ∧ (∀ y ∈ L, f y ≤ f r) ∧ ∀ y ∈ P, f y < f r

/-! ## Claim theorems -/

/-- The pydantic input of a model response whose total score lies 80 points
below both component scores. -/
def lowTotalInput : FileComplexityInput :=
  { file_path := "src/app.py", total_score := 0, cyclomatic_score := 100,
    architectural_score := 100, algorithmic_score := 50, line_count := 120,
    function_count := 4, class_count := 1, patterns_detected := [],
    reasoning := "dense nested control flow" }

/-- Claim C7 witness data: a small listing containing a markdown file, a
non-blob entry and a source file. -/
def sampleTree : List TreeItem :=
  [⟨"blob", "src/main.py"⟩, ⟨"blob", "README.md"⟩, ⟨"tree", "docs"⟩]

/-- A successfully analyzed file whose four scores all equal `t`, used in
aggregation examples. -/
def aggFile (p : String) (t : Rat) : FileComplexity :=
  ⟨p, t, t, t, t, 10, 1, 0, [], "short and simple module"⟩

/-! ## Supporting lemmas -/

theorem splitAtRB_length (l : List Char) :
    ∀ b r, splitAtRB l = some (b, r) → r.length < l.length := by
  induction l with
  | nil => intro b r h; simp [splitAtRB] at h
  | cons c rest ih =>
    intro b r h
    simp only [splitAtRB] at h
    split at h
    · simp only [Option.some.injEq, Prod.mk.injEq] at h
      obtain ⟨-, hr⟩ := h
      subst hr
      simp
    · cases hsp : splitAtRB rest with
      | none => simp [hsp] at h
      | some pr =>
        simp only [hsp, Option.map_some', Option.some.injEq, Prod.mk.injEq] at h
        obtain ⟨-, hr⟩ := h
        subst hr
        have := ih pr.1 pr.2 (by rw [hsp])
        simp only [List.length_cons]
        omega

theorem bracketBody_length (negated : Bool) (l : List Char) :
    ∀ n b r, bracketBody negated l = some (n, b, r) → r.length < l.length := by
  intro n b r h
  unfold bracketBody at h
  split at h
  · rename_i rest
    cases hsp : splitAtRB rest with
    | none => simp [hsp] at h
    | some pr =>
      simp only [hsp, Option.map_some', Option.some.injEq, Prod.mk.injEq] at h
      obtain ⟨-, -, hr⟩ := h
      subst hr
      have := splitAtRB_length rest pr.1 pr.2 (by rw [hsp])
      simp only [List.length_cons]
      omega
  · cases hsp : splitAtRB l with
    | none => simp [hsp] at h
    | some pr =>
      simp only [hsp, Option.map_some', Option.some.injEq, Prod.mk.injEq] at h
      obtain ⟨-, -, hr⟩ := h
      subst hr
      exact splitAtRB_length l pr.1 pr.2 (by rw [hsp])

theorem parseBracket_length (l : List Char) :
    ∀ n b r, parseBracket l = some (n, b, r) → r.length < l.length := by
  intro n b r h
  unfold parseBracket at h
  split at h
  · rename_i rest
    have := bracketBody_length true rest n b r h
    simp only [List.length_cons]
    omega
  · exact bracketBody_length false l n b r h

theorem parseGlobAux_fuel (n : Nat) : ∀ m l, l.length ≤ n → l.length ≤ m →
    parseGlobAux n l = parseGlobAux m l := by
  induction n with
  | zero =>
    intro m l hn hm
    have : l = [] := List.length_eq_zero.mp (Nat.le_zero.mp hn)
    subst this
    cases m <;> simp [parseGlobAux]
  | succ n ih =>
    intro m l hn hm
    cases l with
    | nil => cases m <;> simp [parseGlobAux]
    | cons c ps =>
      cases m with
      | zero => simp at hm
      | succ m =>
        simp only [List.length_cons, Nat.succ_le_succ_iff] at hn hm
        by_cases hstar : c = '*'
        · simp [parseGlobAux, hstar, ih m ps hn hm]
        · by_cases hq : c = '?'
          · simp [parseGlobAux, hstar, hq, ih m ps hn hm]
          · by_cases hb : c = '['
            · cases hpb : parseBracket ps with
              | none => simp [parseGlobAux, hstar, hq, hb, hpb, ih m ps hn hm]
              | some t =>
                have hlt := parseBracket_length ps t.1 t.2.1 t.2.2 (by rw [hpb])
                simp [parseGlobAux, hstar, hq, hb, hpb,
                  ih m t.2.2 (by omega) (by omega)]
            · simp [parseGlobAux, hstar, hq, hb, ih m ps hn hm]

/-! ## Supporting lemmas -/

/-- A star token at the end of a pattern matches any remaining text. -/
theorem tokMatch_star_nil (s : List Char) : tokMatch [GlobTok.star] s = true := by
  induction s with
  | nil => rfl
  | cons c cs ih => simp [tokMatch, List.tails, ih]

/-- Python `max(x :: xs, key=f)` returns the first element attaining the
maximal key: only strictly larger keys replace the accumulator. -/
theorem pyMax1_isFirstMax (f : α → Rat) (x : α) (xs : List α) :
    IsFirstMax f (x :: xs) (pyMax1 f x xs) := by
  induction xs using List.reverseRecOn with
  | nil => exact ⟨[], [], rfl, by simp [pyMax1], by simp⟩
  | append_singleton ys y ih =>
    obtain ⟨P, S, hL, hmax, hstrict⟩ := ih
    have hfold : pyMax1 f x (ys ++ [y]) =
        if f (pyMax1 f x ys) < f y then y else pyMax1 f x ys := by
      unfold pyMax1
      rw [List.foldl_append]
      rfl
    by_cases hlt : f (pyMax1 f x ys) < f y
    · rw [hfold, if_pos hlt]
      refine ⟨x :: ys, [], by simp, ?_, ?_⟩
      · intro z hz
        have hz' : z ∈ (x :: ys) ++ [y] := by simpa using hz
        rcases List.mem_append.mp hz' with h1 | h2
        · exact le_trans (hmax z h1) (le_of_lt hlt)
        · have hzy : z = y := by simpa using h2
          subst hzy
          exact le_refl _
      · intro z hz
        exact lt_of_le_of_lt (hmax z hz) hlt
    · rw [hfold, if_neg hlt]
      refine ⟨P, S ++ [y], ?_, ?_, hstrict⟩
      · rw [show x :: (ys ++ [y]) = (x :: ys) ++ [y] from rfl, hL]
        simp
      · intro z hz
        have hz' : z ∈ (x :: ys) ++ [y] := by simpa using hz
        rcases List.mem_append.mp hz' with h1 | h2
        · exact hmax z h1
        · have hzy : z = y := by simpa using h2
          subst hzy
          exact le_of_not_lt hlt

/-- Mapping the fetched pairs to their paths gives the attempted paths
restricted to those whose fetch succeeded. -/
theorem map_fst_filterMap_content (getContent : String → Option String) :
    ∀ l : List String,
      (l.filterMap (fun p => (getContent p).map (fun c => (p, c)))).map Prod.fst =
        l.filter (fun p => (getContent p).isSome) := by
  intro l
  induction l with
  | nil => rfl
  | cons q qs ihq =>
    cases hcq : getContent q with
    | none => simp [hcq, ihq, List.filter_cons]
    | some c => simp [hcq, ihq, List.filter_cons]

/-- The filtered listing is an order-preserving selection from the listed
paths. -/
theorem filter_code_files_sublist (tree : List TreeItem) (pats : List String) :
    (filter_code_files tree pats).Sublist (tree.map TreeItem.path) := by
  induction tree with
  | nil => simp [filter_code_files]
  | cons item rest ih =>
    have hstep : filter_code_files (item :: rest) pats =
        if item.type != "blob" then filter_code_files rest pats
        else if !(code_extensions.any (fun ext => strEndsWith item.path ext)) then
          filter_code_files rest pats
        else if should_exclude item.path pats then filter_code_files rest pats
        else item.path :: filter_code_files rest pats := rfl
    rw [hstep, List.map_cons]
    split
    · exact ih.cons _
    · split
      · exact ih.cons _
      · split
        · exact ih.cons _
        · exact ih.cons₂ _

/-- The character-level encoding re-encodes a decoded token prefix to at
most the prefix length (with equality; the bound is what
`truncate_idempotent` needs). -/
theorem charEncoding_take (s : String) (k : Nat) :
    (charEncoding.encode (charEncoding.decode ((charEncoding.encode s).take k))).length
      ≤ k := by
  simp [charEncoding, List.map_take]

/-! ## Claim theorems -/

/-- Claim C1: the claimed invariant `total_score ≥ min(cyclomatic_score,
architectural_score) - 20` is not enforced by `FileComplexity`.  The
`validate_total_score` validator guards on the component scores being
present in `values`, but pydantic fills `values` with the fields declared
before the validated one, and `total_score` is declared before both
component scores, so the guard is always false: construction succeeds even
when the total falls 80 points below the component minimum. -/
theorem fileComplexity_invariant_not_enforced :
    (∃ fc, mkFileComplexity lowTotalInput = .ok fc) ∧
      lowTotalInput.total_score <
        min lowTotalInput.cyclomatic_score lowTotalInput.architectural_score - 20 :=
  ⟨⟨_, rfl⟩, by norm_num [lowTotalInput]⟩

/-- Claim C2: refuted on repository names ending in characters from the
set {., g, i, t}: `parse_repo_url` post-processes group 2 with
`rstrip(".git")`, a character-set strip rather than a suffix strip, so
`https://github.com/owner/config` yields the repo name `conf`, not
`config`. -/
theorem parse_repo_url_rstrip_mangles :
    parse_repo_url "https://github.com/owner/config" = .ok ("owner", "conf") ∧
      ("conf" : String) ≠ "config" :=
  ⟨by rfl, by decide⟩

/-- Claim C3: refuted in its score half — `analyze` stores
`round(avg_score, 2)`, so for totals 0, 0, 1 the report's score is 0.33,
not the exact arithmetic mean 1/3.  (The top-file half does hold, see
`report_mean_and_top_file`.) -/
theorem report_score_not_exact_mean :
    (aggregateReport "https://github.com/o/r" "2026-01-01T00:00:00Z" 3 []
        [aggFile "a.py" 0, aggFile "b.py" 0, aggFile "c.py" 1]).map
        (fun r => r.score) = .ok (33 / 100) ∧
      (33 / 100 : Rat) ≠
        (([aggFile "a.py" 0, aggFile "b.py" 0, aggFile "c.py" 1].map
            (fun fc => fc.total_score)).sum /
          (([aggFile "a.py" 0, aggFile "b.py" 0, aggFile "c.py" 1] :
            List FileComplexity).length : Rat)) := by
  have h13 : pyRound2 (1 / 3 : Rat) = 33 / 100 := by
    have hfl : ⌊(1 / 3 : Rat) * 100⌋ = 33 := by
      rw [Int.floor_eq_iff]
      constructor <;> norm_num
    simp only [pyRound2, roundHalfEven, hfl]
    norm_num
  have hmean : (([aggFile "a.py" 0, aggFile "b.py" 0, aggFile "c.py" 1].map
      (fun fc => fc.total_score)).sum /
        (([aggFile "a.py" 0, aggFile "b.py" 0, aggFile "c.py" 1] :
          List FileComplexity).length : Rat)) = (1 / 3 : Rat) := by
    simp [aggFile]
  constructor
  · simp only [aggregateReport, Except.map]
    rw [hmean, h13]
  · rw [hmean, ← h13]
    intro hcontra
    norm_num [pyRound2] at hcontra
    have hfl2 : ⌊(100 / 3 : Rat)⌋ = 33 := by
      rw [Int.floor_eq_iff]
      constructor <;> norm_num
    norm_num [roundHalfEven, hfl2] at hcontra

/-- Claim C3 (amended): for every non-empty analyzed list the report is
produced, its score is the arithmetic mean of the total scores rounded to
two decimal places (Python's half-to-even rounding), and its top file is
the first-encountered file of maximal total score. -/
theorem report_mean_and_top_file (url ts : String) (n : Nat) (pats : List String)
    (analyzed : List FileComplexity) (h : analyzed ≠ []) :
    ∃ r top, aggregateReport url ts n pats analyzed = .ok r ∧
      r.score = pyRound2 ((analyzed.map (fun fc => fc.total_score)).sum /
        (analyzed.length : Rat)) ∧
      IsFirstMax (fun fc => fc.total_score) analyzed top ∧
      r.top_file = top.file_path := by
  match analyzed, h with
  | a :: rest, _ =>
    exact ⟨_, pyMax1 (fun fc => fc.total_score) a rest, rfl, rfl,
      pyMax1_isFirstMax _ a rest, rfl⟩

/-- Witness for `report_mean_and_top_file` on two concrete files. -/
theorem report_mean_and_top_file_witness :
    ∃ r top,
      aggregateReport "https://github.com/o/r" "2026-01-01T00:00:00Z" 2 []
          [aggFile "a.py" 30, aggFile "b.py" 70] = .ok r ∧
        r.score = pyRound2 (([aggFile "a.py" 30, aggFile "b.py" 70].map
            (fun fc => fc.total_score)).sum /
          (([aggFile "a.py" 30, aggFile "b.py" 70] :
            List FileComplexity).length : Rat)) ∧
        IsFirstMax (fun fc => fc.total_score)
          [aggFile "a.py" 30, aggFile "b.py" 70] top ∧
        r.top_file = top.file_path :=
  report_mean_and_top_file "https://github.com/o/r" "2026-01-01T00:00:00Z" 2 []
    [aggFile "a.py" 30, aggFile "b.py" 70] (by decide)

/-- Claim C4: refuted in its error-type half — when the single fetched
file fails analysis, `analyze` raises Python's untyped
`ValueError("max() arg is an empty sequence")` from `max` on the empty
success list, not a dedicated `NoAnalyzableFilesError` (no such class
exists in the source). -/
theorem analyze_all_fail_not_typed :
    analyze (fun _ _ => none) "https://github.com/o/r" "2026-01-01T00:00:00Z" []
        [("a.py", "x = 1")] =
      .error (.valueError "max() arg is an empty sequence") ∧
      PyError.valueError "max() arg is an empty sequence" ≠
        PyError.noAnalyzableFiles :=
  ⟨rfl, by decide⟩

/-- Claim C4 (amended): when every fetched file's analysis fails,
`analyze` raises the untyped `ValueError` produced by `max` on an empty
sequence and returns no report; and each per-file failure is caught — the
loop's successes are exactly those of the remaining files. -/
theorem analyze_all_fail_raises_value_error :
    (∀ (provider : String → String → Option FileComplexity)
      (url ts : String) (pats : List String) (files : List (String × String)),
      (∀ pc ∈ files, provider pc.2 pc.1 = none) →
      analyze provider url ts pats files =
        .error (.valueError "max() arg is an empty sequence")) ∧
    ∀ (provider : String → String → Option FileComplexity)
      (pc : String × String) (rest : List (String × String)),
      provider pc.2 pc.1 = none →
      analyzeLoop provider (pc :: rest) = analyzeLoop provider rest := by
  constructor
  · intro provider url ts pats files hall
    have hempty : analyzeLoop provider files = [] := by
      unfold analyzeLoop
      rw [List.filterMap_eq_nil_iff]
      exact hall
    unfold analyze
    rw [hempty]
    rfl
  · intro provider pc rest hf
    unfold analyzeLoop
    rw [List.filterMap_cons, hf]

/-- Witness for `analyze_all_fail_raises_value_error` with a provider that
fails on every file. -/
theorem analyze_all_fail_raises_value_error_witness :
    analyze (fun _ _ => none) "https://github.com/o/r" "2026-01-01T00:00:00Z"
        ["tests/*"] [("a.py", "x = 1"), ("b.py", "y = 2")] =
      .error (.valueError "max() arg is an empty sequence") ∧
      analyzeLoop (fun _ _ => none) (("a.py", "x = 1") :: [("b.py", "y = 2")]) =
        analyzeLoop (fun _ _ => none) [("b.py", "y = 2")] :=
  ⟨analyze_all_fail_raises_value_error.1 (fun _ _ => none) _ _ _ _
      (fun _ _ => rfl),
    analyze_all_fail_raises_value_error.2 (fun _ _ => none) _ _ rfl⟩

/-- Claim C5: refuted when the resolved `max_tokens` (3) is below `buffer`
(5): the effective limit is negative and Python's negative slice bound
drops two more trailing tokens on each application, so a second
application shortens "abcd" further to "ab". -/
theorem truncate_not_idempotent :
    truncate_to_limit charEncoding "m" "abcdef" (some 3) 5 = "abcd" ∧
      truncate_to_limit charEncoding "m"
        (truncate_to_limit charEncoding "m" "abcdef" (some 3) 5) (some 3) 5 = "ab" ∧
      ("ab" : String) ≠ "abcd" :=
  ⟨by decide, by decide, by decide⟩

/-- Claim C5 (amended): `truncate_to_limit` is idempotent whenever
`buffer` is at most the resolved `max_tokens` (the effective limit is then
nonnegative), for any encoding that re-encodes a decoded token prefix to
at most the prefix length; `truncate_not_idempotent` shows idempotence
fails once `max_tokens` resolves below `buffer`. -/
theorem truncate_idempotent (E : Encoding) (model text : String)
    (maxTokens : Option Int) (buffer : Int)
    (hE : ∀ s (k : Nat),
      (E.encode (E.decode ((E.encode s).take k))).length ≤ k)
    (hbuf : buffer ≤ resolveMaxTokens model maxTokens) :
    truncate_to_limit E model (truncate_to_limit E model text maxTokens buffer)
        maxTokens buffer =
      truncate_to_limit E model text maxTokens buffer := by
  have hm0 : 0 ≤ resolveMaxTokens model maxTokens - buffer := by omega
  by_cases hfit :
      ((E.encode text).length : Int) ≤ resolveMaxTokens model maxTokens - buffer
  · have htext : truncate_to_limit E model text maxTokens buffer = text := by
      simp only [truncate_to_limit]
      rw [if_pos hfit]
    rw [htext]
    exact htext
  · have hr : truncate_to_limit E model text maxTokens buffer =
        E.decode ((E.encode text).take
          (resolveMaxTokens model maxTokens - buffer).toNat) := by
      simp only [truncate_to_limit, pySliceTo]
      rw [if_neg hfit, if_neg (by omega)]
    rw [hr]
    simp only [truncate_to_limit]
    rw [if_pos]
    have h1 := hE text (resolveMaxTokens model maxTokens - buffer).toNat
    have h2 : ((resolveMaxTokens model maxTokens - buffer).toNat : Int) =
        resolveMaxTokens model maxTokens - buffer := Int.toNat_of_nonneg hm0
    omega

/-- Witness for `truncate_idempotent` with the character-level encoding on
a fitting budget. -/
theorem truncate_idempotent_witness :
    truncate_to_limit charEncoding "gpt-4"
        (truncate_to_limit charEncoding "gpt-4" "hello world" (some 100) 10)
        (some 100) 10 =
      truncate_to_limit charEncoding "gpt-4" "hello world" (some 100) 10 :=
  truncate_idempotent charEncoding "gpt-4" "hello world" (some 100) 10
    (fun s k => charEncoding_take s k) (by decide)

/-- Claim C6: refuted — `_should_exclude` delegates to `fnmatch`, whose
translated regex turns `*` into `.*`, which crosses `/` separators: the
pattern `tests/*` does match a path nested in a subdirectory of
`tests/`. -/
theorem tests_star_matches_nested :
    should_exclude "tests/unit/test_app.py" ["tests/*"] = true := by decide

/-- Claim C6 (amended): exclusion matching uses `fnmatch` semantics, in
which `*` matches any run of characters including `/` separators — so
`tests/*` matches every path under `tests/`, however deeply nested —
and matching is case-sensitive. -/
theorem star_crosses_separators :
    (∀ rest : String, should_exclude ("tests/" ++ rest) ["tests/*"] = true) ∧
      should_exclude "TESTS/unit/app.py" ["tests/*"] = false := by
  constructor
  · intro rest
    have hp : parseGlob ("tests/*".data) =
        [.lit 't', .lit 'e', .lit 's', .lit 't', .lit 's', .lit '/', .star] := by decide
    have hdata : ("tests/" ++ rest).data =
        't' :: 'e' :: 's' :: 't' :: 's' :: '/' :: rest.data := by
      rw [String.data_append]
      rfl
    simp only [should_exclude, List.any_cons, List.any_nil, Bool.or_false,
      fnmatch, hp, hdata]
    simp [tokMatch, tokMatch_star_nil rest.data]
  · decide

/-- Claim C7: every path surviving `_filter_code_files` matches none of
the exclude patterns and ends with an allow-listed source extension. -/
theorem filter_code_files_sound (tree : List TreeItem) (pats : List String)
    (p : String) (hp : p ∈ filter_code_files tree pats) :
    (∀ pat ∈ pats, fnmatch p pat = false) ∧
      ∃ ext ∈ code_extensions, strEndsWith p ext = true := by
  induction tree with
  | nil => simp [filter_code_files] at hp
  | cons item rest ih =>
    have hstep : filter_code_files (item :: rest) pats =
        if item.type != "blob" then filter_code_files rest pats
        else if !(code_extensions.any (fun ext => strEndsWith item.path ext)) then
          filter_code_files rest pats
        else if should_exclude item.path pats then filter_code_files rest pats
        else item.path :: filter_code_files rest pats := rfl
    rw [hstep] at hp
    split at hp
    · exact ih hp
    · split at hp
      · exact ih hp
      · split at hp
        · exact ih hp
        · rename_i hblob hext hexc
          rcases List.mem_cons.mp hp with hpe | hpm
          · subst hpe
            constructor
            · intro pat hpat
              have hfalse : should_exclude item.path pats = false := by
                revert hexc
                cases should_exclude item.path pats <;> simp
              unfold should_exclude at hfalse
              simp only [List.any_eq_false, Bool.not_eq_true] at hfalse
              exact hfalse pat hpat
            · have htrue :
                  code_extensions.any (fun ext => strEndsWith item.path ext) = true := by
                revert hext
                cases code_extensions.any (fun ext => strEndsWith item.path ext) <;> simp
              exact List.any_eq_true.mp htrue
          · exact ih hpm

/-- Witness for `filter_code_files_sound` at a concrete listing. -/
theorem filter_code_files_sound_witness :
    (∀ pat ∈ ["*.md"], fnmatch "src/main.py" pat = false) ∧
      ∃ ext ∈ code_extensions, strEndsWith "src/main.py" ext = true :=
  filter_code_files_sound sampleTree ["*.md"] "src/main.py" (by decide)

/-- Claim C8: the paths whose contents are fetched are exactly the first
`max_files` survivors of filtering, and the survivors keep the original
listing order (they form a sublist of the listed paths). -/
theorem fetch_first_survivors (tree : List TreeItem) (pats : List String)
    (max_files : Nat) :
    fetchAttemptPaths tree pats max_files =
      (filter_code_files tree pats).take max_files ∧
      (fetchAttemptPaths tree pats max_files).Sublist (tree.map TreeItem.path) ∧
      ∀ getContent,
        (fetch_repository_files getContent tree max_files (some pats)).map Prod.fst =
          (fetchAttemptPaths tree pats max_files).filter
            (fun p => (getContent p).isSome) := by
  refine ⟨rfl, ?_, ?_⟩
  · exact (List.take_sublist _ _).trans (filter_code_files_sublist tree pats)
  · intro getContent
    exact map_fst_filterMap_content getContent (fetchAttemptPaths tree pats max_files)

/-- Claim C9: `RepositoryAnalyzer.__init__` resolves its exclude patterns
with Python `or`, so an explicitly empty list is falsy and selects the
defaults exactly like an omitted argument; only a non-empty list overrides
them. -/
theorem empty_excludes_get_defaults :
    resolve_exclude_patterns (some []) = ["tests/*", "*.md", "*.txt"] ∧
      resolve_exclude_patterns (some []) = resolve_exclude_patterns none ∧
      ∀ l : List String, l ≠ [] → resolve_exclude_patterns (some l) = l := by
  refine ⟨rfl, rfl, ?_⟩
  intro l hl
  simp [resolve_exclude_patterns, hl]

/-- Witness for `empty_excludes_get_defaults` at a concrete non-empty
override. -/
theorem empty_excludes_get_defaults_witness :
    resolve_exclude_patterns (some ["src/*"]) = ["src/*"] :=
  empty_excludes_get_defaults.2.2 ["src/*"] (by decide)

/-- Claim C10: refuted in its non-emptiness half — for a two-token text
with `max_tokens = 3` and `buffer = 5` the negative slice bound drops
every token and the returned text is empty. -/
theorem truncate_negative_limit_empty :
    resolveMaxTokens "m" (some 3) < 5 ∧
      truncate_to_limit charEncoding "m" "ab" (some 3) 5 = "" :=
  ⟨by decide, by decide⟩

/-- Claim C10 (amended): when the resolved `max_tokens` falls below
`buffer`, the fit test cannot pass and the result is the decoding of all
tokens except the last `buffer - max_tokens` of them; the kept token list
is nonempty exactly when the token count exceeds `buffer - max_tokens`
(and empty — decoding to the empty text — otherwise, against the claim's
unconditional non-emptiness). -/
theorem truncate_negative_limit (E : Encoding) (model text : String)
    (maxTokens : Option Int) (buffer : Int)
    (hneg : resolveMaxTokens model maxTokens < buffer) :
    truncate_to_limit E model text maxTokens buffer =
      E.decode ((E.encode text).take
        ((E.encode text).length -
          (buffer - resolveMaxTokens model maxTokens).toNat)) ∧
      ((buffer - resolveMaxTokens model maxTokens).toNat <
          (E.encode text).length →
        (E.encode text).take
          ((E.encode text).length -
            (buffer - resolveMaxTokens model maxTokens).toNat) ≠ []) := by
  have hcond :
      ¬ (((E.encode text).length : Int) ≤ resolveMaxTokens model maxTokens - buffer) := by
    have : (0 : Int) ≤ ((E.encode text).length : Int) := Int.ofNat_nonneg _
    omega
  constructor
  · simp only [truncate_to_limit, pySliceTo]
    rw [if_neg hcond, if_pos (by omega)]
    congr 2
    omega
  · intro hlt
    intro hnil
    have hlen := congrArg List.length hnil
    rw [List.length_take] at hlen
    simp only [List.length_nil] at hlen
    omega

/-- Witness for `truncate_negative_limit` on a six-token text. -/
theorem truncate_negative_limit_witness :
    truncate_to_limit charEncoding "m" "abcdef" (some 3) 5 =
        charEncoding.decode ((charEncoding.encode "abcdef").take
          ((charEncoding.encode "abcdef").length -
            (5 - resolveMaxTokens "m" (some 3)).toNat)) ∧
      ((5 - resolveMaxTokens "m" (some 3)).toNat <
          (charEncoding.encode "abcdef").length →
        (charEncoding.encode "abcdef").take
          ((charEncoding.encode "abcdef").length -
            (5 - resolveMaxTokens "m" (some 3)).toNat) ≠ []) :=
  truncate_negative_limit charEncoding "m" "abcdef" (some 3) 5 (by decide)

end ComplexityAnalyzer
